import Mathlib

/-!
Verification development for the ngx-testbox testing API, as documented in
`docs/tutorial-basics/API definition.md` and described in the repository's
design specification.  The repository ships only the documentation of the
library; the implementation of the runtime operations (the stabilization
loop `runTasksUntilStable`, the standalone helper `completeHttpCalls`, the
predefined instruction constructors, the `TestIdDirective` and the
`DebugElementHarness`) is not part of the sources, so those operations are
modelled here from the specification's words and the documented API
contracts, and the documented properties are proved about the model.
-/

set_option maxRecDepth 4096

/-- An HTTP method, represented as a plain string
(`export type HttpMethod = string` in the documented API). -/
abbrev HttpMethod := String

/-- Modelled from the spec: the shape of an outgoing HTTP request observed by
the matcher.  Only the URL and the method take part in matching, so the model
keeps exactly those two fields. -/
structure HttpRequest where
  url : String
  method : HttpMethod
  deriving DecidableEq

/-- Modelled from the spec: a response descriptor (status code and body)
produced by a response getter and delivered to a pending request. -/
structure HttpResponse where
  status : Nat
  body : String
  deriving DecidableEq

/-- An endpoint path: either a literal string (exact or partial URL match) or
a pattern (`RegExp` in the documented API, modelled as its test function)
(`export type EndpointPath = string | RegExp`). -/
inductive EndpointPath where
  | literal (path : String)
  | pattern (test : String → Bool)

/-- Parsed URL search parameters, handed to a response getter alongside the
request (the `URLSearchParams` argument of the documented `ResponseGetter`). -/
def parseSearchParams (url : String) : List (String × String) :=
  match url.splitOn "?" with
  | _ :: query :: _ =>
    (query.splitOn "&").map (fun kv =>
      match kv.splitOn "=" with
      | k :: v :: _ => (k, v)
      | k :: _ => (k, "")
      | [] => ("", ""))
  | _ => []

/-- A function producing the HTTP response for a request
(`export type ResponseGetter = (httpRequest, searchParams) => HttpResponse`). -/
abbrev ResponseGetter := HttpRequest → List (String × String) → HttpResponse

/-- A checker deciding whether a request matches an instruction: either a
predicate over the request or an (endpoint path, HTTP method) tuple
(`export type HttpCallChecker = ((httpRequest) => boolean) | [EndpointPath, HttpMethod]`). -/
inductive HttpCallChecker where
  | predicate (check : HttpRequest → Bool)
  | pathMethod (path : EndpointPath) (method : HttpMethod)

/-- A pair of an HTTP call checker and a response getter
(`export type HttpCallInstruction = [HttpCallChecker, ResponseGetter]`). -/
abbrev HttpCallInstruction := HttpCallChecker × ResponseGetter

/-- Modelled from the spec: a literal string path matches a URL by exact or
partial (substring) comparison ("String: Exact or partial match for the URL"). -/
def stringPathMatches (path url : String) : Bool :=
  path == url || decide (path.data <:+: url.data)

/-- Modelled from the spec: whether an endpoint path matches a URL — literal
paths by the exact-or-substring rule, pattern paths by the pattern's test. -/
def endpointPathMatches : EndpointPath → String → Bool
  | .literal p, url => stringPathMatches p url
  | .pattern t, url => t url

/-- Modelled from the spec: whether a checker accepts a request — a predicate
checker by invoking it, a (path, method) checker by comparing the request's
method with the tuple's method and matching the request's URL against the
path. -/
def checkerAccepts : HttpCallChecker → HttpRequest → Bool
  | .predicate f, r => f r
  | .pathMethod p m, r => (r.method == m) && endpointPathMatches p r.url

/-- Whether the instruction at index `i` of the list accepts the request
(`false` when the index is out of range). -/
def acceptsIdx (instructions : List HttpCallInstruction) (i : Nat) (r : HttpRequest) : Bool :=
  match instructions.get? i with
  | some ins => checkerAccepts ins.1 r
  | none => false

/-- Modelled from the spec: the request-matcher helper returns the index of
the first instruction (in caller-supplied order) whose checker accepts the
request, or `none` when no instruction matches. -/
def findMatchIdx (instructions : List HttpCallInstruction) (r : HttpRequest) : Option Nat :=
  match instructions with
  | [] => none
  | ins :: rest =>
    if checkerAccepts ins.1 r then some 0
    else (findMatchIdx rest r).map (fun i => i + 1)

/-- Errors surfaced by the testing helpers: the attempt budget was exhausted,
a pending request had no matching instruction, a supplied instruction was
never consumed, or the standalone matching helper found no match. -/
inductive TestboxError where
  | stabilizationTimeout
  | unhandledRequest (request : HttpRequest)
  | unusedInstruction (index : Nat)
  | matchNotFound (request : HttpRequest)
  deriving DecidableEq

/-- Modelled from the spec: `completeHttpCalls` — for each request in the
queue, in order, find the first matching instruction from the provided array
and use it to produce and flush a response; raise a match-not-found error if
a request matches no instruction. -/
def completeHttpCalls (instructions : List HttpCallInstruction) :
    List HttpRequest → Except TestboxError (List (HttpRequest × HttpResponse))
  | [] => .ok []
  | r :: rest =>
    match findMatchIdx instructions r with
    | none => .error (.matchNotFound r)
    | some i =>
      match instructions.get? i with
      | none => .error (.matchNotFound r)
      | some ins =>
        (completeHttpCalls instructions rest).map
          (fun responses => (r, ins.2 r (parseSearchParams r.url)) :: responses)

@[simp]
theorem acceptsIdx_nil (i : Nat) (r : HttpRequest) : acceptsIdx [] i r = false := by
  cases i <;> rfl

@[simp]
theorem acceptsIdx_cons_zero (ins : HttpCallInstruction) (rest : List HttpCallInstruction)
    (r : HttpRequest) : acceptsIdx (ins :: rest) 0 r = checkerAccepts ins.1 r := rfl

@[simp]
theorem acceptsIdx_cons_succ (ins : HttpCallInstruction) (rest : List HttpCallInstruction)
    (i : Nat) (r : HttpRequest) : acceptsIdx (ins :: rest) (i + 1) r = acceptsIdx rest i r := rfl

theorem acceptsIdx_lt_length {instructions : List HttpCallInstruction} {i : Nat}
    {r : HttpRequest} (h : acceptsIdx instructions i r = true) : i < instructions.length := by
  induction instructions generalizing i with
  | nil => simp at h
  | cons ins rest ih =>
    cases i with
    | zero => simp
    | succ i' =>
      have := ih (i := i') (by simpa using h)
      simp only [List.length_cons]
      omega

theorem findMatchIdx_some_accepts {instructions : List HttpCallInstruction}
    {r : HttpRequest} {i : Nat} (h : findMatchIdx instructions r = some i) :
    acceptsIdx instructions i r = true := by
  induction instructions generalizing i with
  | nil => simp [findMatchIdx] at h
  | cons ins rest ih =>
    by_cases hacc : checkerAccepts ins.1 r = true
    · simp [findMatchIdx, hacc] at h
      subst h
      simpa using hacc
    · simp [findMatchIdx, hacc] at h
      obtain ⟨j, hj, rfl⟩ := h
      simpa using ih hj

theorem findMatchIdx_some_first {instructions : List HttpCallInstruction}
    {r : HttpRequest} {i : Nat} (h : findMatchIdx instructions r = some i) :
    ∀ j, j < i → acceptsIdx instructions j r = false := by
  induction instructions generalizing i with
  | nil => simp [findMatchIdx] at h
  | cons ins rest ih =>
    by_cases hacc : checkerAccepts ins.1 r = true
    · simp [findMatchIdx, hacc] at h
      subst h
      intro j hj
      omega
    · simp [findMatchIdx, hacc] at h
      obtain ⟨k, hk, rfl⟩ := h
      intro j hj
      cases j with
      | zero => simpa using Bool.eq_false_iff.mpr hacc
      | succ j' => simpa using ih hk j' (by omega)

theorem findMatchIdx_none_iff {instructions : List HttpCallInstruction} {r : HttpRequest} :
    findMatchIdx instructions r = none ↔ ∀ i, acceptsIdx instructions i r = false := by
  induction instructions with
  | nil => simp [findMatchIdx]
  | cons ins rest ih =>
    by_cases hacc : checkerAccepts ins.1 r = true
    · constructor
      · intro h
        simp [findMatchIdx, hacc] at h
      · intro hall
        have := hall 0
        rw [acceptsIdx_cons_zero, hacc] at this
        cases this
    · constructor
      · intro h i
        have hnone : findMatchIdx rest r = none := by
          simp [findMatchIdx, hacc] at h
          exact h
        cases i with
        | zero => simpa using Bool.eq_false_iff.mpr hacc
        | succ i' => simpa using ih.mp hnone i'
      · intro hall
        have hnone : findMatchIdx rest r = none := ih.mpr (fun i => by simpa using hall (i + 1))
        simp [findMatchIdx, hacc, hnone]

theorem findMatchIdx_isSome_of_accepts {instructions : List HttpCallInstruction}
    {r : HttpRequest} {i : Nat} (h : acceptsIdx instructions i r = true) :
    ∃ j, findMatchIdx instructions r = some j := by
  cases hf : findMatchIdx instructions r with
  | none =>
    have := findMatchIdx_none_iff.mp hf i
    rw [this] at h
    cases h
  | some j => exact ⟨j, rfl⟩

theorem findMatchIdx_eq_of_first {instructions : List HttpCallInstruction}
    {r : HttpRequest} {i : Nat} (hacc : acceptsIdx instructions i r = true)
    (hfirst : ∀ j, j < i → acceptsIdx instructions j r = false) :
    findMatchIdx instructions r = some i := by
  obtain ⟨j, hj⟩ := findMatchIdx_isSome_of_accepts hacc
  have hjacc := findMatchIdx_some_accepts hj
  have hjfirst := findMatchIdx_some_first hj
  have : ¬ i < j := fun hlt => by rw [hjfirst i hlt] at hacc; cases hacc
  have : ¬ j < i := fun hlt => by rw [hfirst j hlt] at hjacc; cases hjacc
  have : j = i := by omega
  rw [this] at hj
  exact hj

theorem findMatchIdx_eq_of_unique {instructions : List HttpCallInstruction}
    {r : HttpRequest} {i : Nat} (hacc : acceptsIdx instructions i r = true)
    (huniq : ∀ j, acceptsIdx instructions j r = true → j = i) :
    findMatchIdx instructions r = some i := by
  apply findMatchIdx_eq_of_first hacc
  intro j hj
  by_contra hne
  have htrue : acceptsIdx instructions j r = true := by
    cases h : acceptsIdx instructions j r
    · exact absurd h hne
    · rfl
  have := huniq j htrue
  omega

/-- Modelled from the spec: the test fixture's outstanding asynchronous work —
the simulated transport's queue of pending HTTP requests and the remaining
delays (in milliseconds) of scheduled timers.  The fixture is quiescent
("stable") exactly when no such work remains. -/
structure Fixture where
  pending : List HttpRequest
  timers : List Nat
  deriving DecidableEq

/-- Modelled from the spec: the fixture's is-stable query — no pending
simulated requests and no outstanding timers. -/
def Fixture.isStable (f : Fixture) : Bool :=
  f.pending.isEmpty && f.timers.isEmpty

/-- Modelled from the spec: advancing the virtual clock by `ms` milliseconds
executes every timer due within that window and leaves the rest with their
remaining delays. -/
def Fixture.tick (f : Fixture) (ms : Nat) : Fixture :=
  { f with timers := f.timers.filterMap (fun t => if t ≤ ms then none else some (t - ms)) }

/-- Modelled from the spec: the transient state of one stabilization-loop
invocation — the fixture, the indices of instructions matched so far, the
elapsed simulated time and the current attempt index. -/
structure LoopState where
  fixture : Fixture
  used : List Nat
  clock : Nat
  attempts : Nat
  deriving DecidableEq

/-- Record that one more stabilization attempt has started. -/
def LoopState.bump (s : LoopState) : LoopState :=
  { s with attempts := s.attempts + 1 }

/-- State after an attempt resolved every pending request: the attempt is
counted, the pending queue is drained and the used-instruction set grows to
`used'`. -/
def LoopState.afterResolve (s : LoopState) (used' : List Nat) : LoopState :=
  { s with
      attempts := s.attempts + 1,
      used := used',
      fixture := { s.fixture with pending := [] } }

/-- Advance the simulated clock by `ms`: the fixture's timers run forward and
the elapsed time grows by exactly `ms`. -/
def LoopState.advanceClock (s : LoopState) (ms : Nat) : LoopState :=
  { s with fixture := s.fixture.tick ms, clock := s.clock + ms }

/-- Final outcome of one stabilization invocation, carrying the final loop
state: success, an unhandled pending request, a never-consumed instruction,
or exhaustion of the attempt budget. -/
inductive StabOutcome where
  | ok (final : LoopState)
  | unhandledRequest (request : HttpRequest) (final : LoopState)
  | unusedInstruction (index : Nat) (final : LoopState)
  | timeout (final : LoopState)
  deriving DecidableEq

/-- The final loop state carried by an outcome. -/
def StabOutcome.final : StabOutcome → LoopState
  | .ok s => s
  | .unhandledRequest _ s => s
  | .unusedInstruction _ s => s
  | .timeout s => s

/-- Modelled from the spec: drain the pending-request queue — each request is
resolved by the first instruction whose checker accepts it and that
instruction's index is recorded as used; the first request with no matching
instruction aborts the drain. -/
def resolvePending (instructions : List HttpCallInstruction) :
    List HttpRequest → List Nat → Except HttpRequest (List Nat)
  | [], used => .ok used
  | r :: rest, used =>
    match findMatchIdx instructions r with
    | none => .error r
    | some i => resolvePending instructions rest (used ++ [i])

/-- The first instruction index not in the used set, if any. -/
def firstUnusedIdx (count : Nat) (used : List Nat) : Option Nat :=
  (List.range count).find? (fun i => !(used.contains i))

/-- Modelled from the spec: the loop's exit check — on overall success every
supplied instruction must have been matched at least once; otherwise the
invocation fails naming a never-consumed instruction. -/
def finishRun (instructions : List HttpCallInstruction) (s : LoopState) : StabOutcome :=
  match firstUnusedIdx instructions.length s.used with
  | some i => .unusedInstruction i s
  | none => .ok s

/-- Result of a single stabilization attempt: either the invocation finishes
with an outcome or the loop proceeds to the next attempt. -/
inductive IterationResult where
  | finished (outcome : StabOutcome)
  | proceed (next : LoopState)
  deriving DecidableEq

/-- Modelled from the spec: one stabilization attempt — trigger change
detection, drain the pending requests against the instructions (aborting on
an unmatched request without touching the clock), exit successfully when no
request was pending and the fixture is already stable, and otherwise advance
the simulated clock by `iterationMs` and retry. -/
def loopIteration (instructions : List HttpCallInstruction) (iterationMs : Nat)
    (s : LoopState) : IterationResult :=
  match resolvePending instructions s.fixture.pending s.used with
  | .error r => .finished (.unhandledRequest r s.bump)
  | .ok used' =>
    if s.fixture.pending.isEmpty && s.fixture.timers.isEmpty then
      .finished (finishRun instructions (s.afterResolve used'))
    else
      .proceed ((s.afterResolve used').advanceClock iterationMs)

/-- Modelled from the spec: the bounded retry loop — up to `fuel` further
attempts; when the budget is exhausted the invocation aborts with a
stabilization-timeout failure if the fixture is still unstable, and otherwise
performs the final used-instruction check. -/
def runLoop (instructions : List HttpCallInstruction) (iterationMs : Nat) :
    Nat → LoopState → StabOutcome
  | 0, s => if s.fixture.isStable then finishRun instructions s else .timeout s
  | fuel + 1, s =>
    match loopIteration instructions iterationMs s with
    | .finished outcome => outcome
    | .proceed s' => runLoop instructions iterationMs fuel s'

/-- Modelled from the spec: the fixed, caller-unconfigurable maximum number of
stabilization attempts (the spec fixes it as a bounded constant without
naming its value). -/
def maxStabilizationAttempts : Nat := 100

/-- The default clock advance per attempt, in milliseconds
(`params.iterationMs = 1000`). -/
def defaultIterationMs : Nat := 1000

/-- Recognized options of the stabilization operation: the optional clock
increment per attempt and the ordered list of HTTP call instructions. -/
structure RunParams where
  iterationMs : Option Nat
  httpCallInstructions : List HttpCallInstruction

/-- The effective clock increment per attempt: the caller's `iterationMs`
when supplied, and 1000 ms otherwise. -/
def RunParams.resolvedIterationMs (p : RunParams) : Nat :=
  p.iterationMs.getD defaultIterationMs

/-- Modelled from the spec: `runTasksUntilStable` — run the bounded
stabilization loop on the fixture from a fresh invocation state (no
instruction used yet, elapsed time zero, attempt counter zero). -/
def runTasksUntilStable (fixture : Fixture) (params : RunParams) : StabOutcome :=
  runLoop params.httpCallInstructions params.resolvedIterationMs
    maxStabilizationAttempts
    { fixture := fixture, used := [], clock := 0, attempts := 0 }

theorem acceptsIdx_get {instructions : List HttpCallInstruction} {i : Nat} {r : HttpRequest}
    (h : acceptsIdx instructions i r = true) :
    ∃ ins, instructions.get? i = some ins ∧ checkerAccepts ins.1 r = true := by
  unfold acceptsIdx at h
  cases hg : instructions.get? i with
  | none => rw [hg] at h; cases h
  | some ins => rw [hg] at h; exact ⟨ins, rfl, h⟩

@[simp]
theorem resolvePending_nil (instructions : List HttpCallInstruction) (used : List Nat) :
    resolvePending instructions [] used = .ok used := rfl

theorem resolvePending_ok_of_matched {instructions : List HttpCallInstruction}
    {pending : List HttpRequest}
    (hmatch : ∀ r ∈ pending, ∃ i, findMatchIdx instructions r = some i) :
    ∀ used, ∃ used', resolvePending instructions pending used = .ok used' ∧
      (∀ x, x ∈ used → x ∈ used') ∧
      (∀ r ∈ pending, ∀ i, findMatchIdx instructions r = some i → i ∈ used') := by
  induction pending with
  | nil => exact fun used => ⟨used, rfl, fun x hx => hx, fun r hr => absurd hr (by simp)⟩
  | cons r rest ih =>
    intro used
    obtain ⟨i, hi⟩ := hmatch r (by simp)
    obtain ⟨used', hok, hsub, hall⟩ :=
      ih (fun r' hr' => hmatch r' (by simp [hr'])) (used ++ [i])
    refine ⟨used', ?_, ?_, ?_⟩
    · simp [resolvePending, hi, hok]
    · exact fun x hx => hsub x (by simp [hx])
    · intro r' hr' j hj
      rcases List.mem_cons.mp hr' with hEq | hMem
      · subst hEq
        rw [hi] at hj
        obtain rfl : i = j := Option.some.inj hj
        exact hsub _ (by simp)
      · exact hall r' hMem j hj

theorem resolvePending_ok_mem {instructions : List HttpCallInstruction}
    {pending : List HttpRequest} :
    ∀ {used used' : List Nat}, resolvePending instructions pending used = .ok used' →
      ∀ x ∈ used', x ∈ used ∨ ∃ r ∈ pending, findMatchIdx instructions r = some x := by
  induction pending with
  | nil =>
    intro used used' h x hx
    simp only [resolvePending_nil] at h
    injection h with h
    subst h
    exact Or.inl hx
  | cons r rest ih =>
    intro used used' h x hx
    unfold resolvePending at h
    cases hm : findMatchIdx instructions r with
    | none => rw [hm] at h; cases h
    | some i =>
      rw [hm] at h
      rcases ih h x hx with hIn | ⟨r', hr', hfind⟩
      · rcases List.mem_append.mp hIn with hu | hi
        · exact Or.inl hu
        · refine Or.inr ⟨r, by simp, ?_⟩
          simp only [List.mem_singleton] at hi
          rw [hi]
          exact hm
      · exact Or.inr ⟨r', by simp [hr'], hfind⟩

theorem resolvePending_error_first {instructions : List HttpCallInstruction}
    {pending : List HttpRequest}
    (hbad : ∃ r ∈ pending, findMatchIdx instructions r = none) :
    ∀ used, ∃ r', r' ∈ pending ∧ findMatchIdx instructions r' = none ∧
      resolvePending instructions pending used = .error r' ∧
      completeHttpCalls instructions pending = .error (.matchNotFound r') := by
  induction pending with
  | nil => simp at hbad
  | cons r rest ih =>
    intro used
    cases hm : findMatchIdx instructions r with
    | none =>
      exact ⟨r, by simp, hm, by simp [resolvePending, hm], by simp [completeHttpCalls, hm]⟩
    | some i =>
      have hrest : ∃ r' ∈ rest, findMatchIdx instructions r' = none := by
        rcases hbad with ⟨r', hr', hnone⟩
        rcases List.mem_cons.mp hr' with hEq | hMem
        · subst hEq; rw [hm] at hnone; cases hnone
        · exact ⟨r', hMem, hnone⟩
      obtain ⟨r', hr', hnone, hres, hcomp⟩ := ih hrest (used ++ [i])
      obtain ⟨ins, hins, -⟩ := acceptsIdx_get (findMatchIdx_some_accepts hm)
      have hins' : instructions[i]? = some ins := by
        rw [← List.get?_eq_getElem?]
        exact hins
      refine ⟨r', by simp [hr'], hnone, ?_, ?_⟩
      · simp [resolvePending, hm, hres]
      · simp [completeHttpCalls, hm, hins', hcomp, Except.map]

theorem firstUnusedIdx_none_iff {count : Nat} {used : List Nat} :
    firstUnusedIdx count used = none ↔ ∀ i, i < count → used.contains i = true := by
  unfold firstUnusedIdx
  rw [List.find?_eq_none]
  constructor
  · intro h i hi
    have := h i (List.mem_range.mpr hi)
    simpa using this
  · intro h i hi
    simpa using h i (List.mem_range.mp hi)

theorem firstUnusedIdx_isSome_of {count : Nat} {used : List Nat} {i : Nat}
    (hi : i < count) (hnot : used.contains i = false) :
    ∃ j, firstUnusedIdx count used = some j := by
  cases hf : firstUnusedIdx count used with
  | none =>
    have := firstUnusedIdx_none_iff.mp hf i hi
    rw [hnot] at this
    cases this
  | some j => exact ⟨j, rfl⟩

theorem finishRun_cases (instructions : List HttpCallInstruction) (s : LoopState) :
    (∃ i, firstUnusedIdx instructions.length s.used = some i ∧
      finishRun instructions s = .unusedInstruction i s) ∨
    (firstUnusedIdx instructions.length s.used = none ∧ finishRun instructions s = .ok s) := by
  unfold finishRun
  cases hf : firstUnusedIdx instructions.length s.used with
  | none => exact Or.inr ⟨rfl, rfl⟩
  | some i => exact Or.inl ⟨i, rfl, rfl⟩

theorem finishRun_eq_ok {instructions : List HttpCallInstruction} {s s' : LoopState}
    (h : finishRun instructions s = .ok s') :
    firstUnusedIdx instructions.length s.used = none ∧ s' = s := by
  rcases finishRun_cases instructions s with ⟨i, -, hf⟩ | ⟨hnone, hf⟩
  · rw [hf] at h; cases h
  · rw [hf] at h; injection h with h; exact ⟨hnone, h.symm⟩

theorem loopIteration_finished_cases {instructions : List HttpCallInstruction}
    {ms : Nat} {s : LoopState} {out : StabOutcome}
    (h : loopIteration instructions ms s = .finished out) :
    (∃ r, resolvePending instructions s.fixture.pending s.used = .error r ∧
      out = .unhandledRequest r s.bump) ∨
    (∃ used', resolvePending instructions s.fixture.pending s.used = .ok used' ∧
      s.fixture.pending = [] ∧ s.fixture.timers = [] ∧
      out = finishRun instructions (s.afterResolve used')) := by
  unfold loopIteration at h
  cases hres : resolvePending instructions s.fixture.pending s.used with
  | error r =>
    rw [hres] at h
    injection h with h
    exact Or.inl ⟨r, rfl, h.symm⟩
  | ok used' =>
    rw [hres] at h
    dsimp only at h
    by_cases hcond : (s.fixture.pending.isEmpty && s.fixture.timers.isEmpty) = true
    · rw [if_pos hcond] at h
      injection h with h
      have hp : s.fixture.pending = [] := by
        have := (Bool.and_eq_true _ _).mp hcond
        simpa using this.1
      have ht : s.fixture.timers = [] := by
        have := (Bool.and_eq_true _ _).mp hcond
        simpa using this.2
      exact Or.inr ⟨used', rfl, hp, ht, h.symm⟩
    · rw [if_neg hcond] at h
      cases h

theorem loopIteration_proceed_cases {instructions : List HttpCallInstruction}
    {ms : Nat} {s s' : LoopState}
    (h : loopIteration instructions ms s = .proceed s') :
    ∃ used', resolvePending instructions s.fixture.pending s.used = .ok used' ∧
      s' = (s.afterResolve used').advanceClock ms := by
  unfold loopIteration at h
  cases hres : resolvePending instructions s.fixture.pending s.used with
  | error r => rw [hres] at h; cases h
  | ok used' =>
    rw [hres] at h
    dsimp only at h
    by_cases hcond : (s.fixture.pending.isEmpty && s.fixture.timers.isEmpty) = true
    · rw [if_pos hcond] at h; cases h
    · rw [if_neg hcond] at h
      injection h with h
      exact ⟨used', rfl, h.symm⟩

@[simp]
theorem bump_fixture (s : LoopState) : s.bump.fixture = s.fixture := rfl

@[simp]
theorem bump_used (s : LoopState) : s.bump.used = s.used := rfl

@[simp]
theorem bump_clock (s : LoopState) : s.bump.clock = s.clock := rfl

@[simp]
theorem bump_attempts (s : LoopState) : s.bump.attempts = s.attempts + 1 := rfl

@[simp]
theorem afterResolve_pending (s : LoopState) (u : List Nat) :
    (s.afterResolve u).fixture.pending = [] := rfl

@[simp]
theorem afterResolve_timers (s : LoopState) (u : List Nat) :
    (s.afterResolve u).fixture.timers = s.fixture.timers := rfl

@[simp]
theorem afterResolve_used (s : LoopState) (u : List Nat) : (s.afterResolve u).used = u := rfl

@[simp]
theorem afterResolve_clock (s : LoopState) (u : List Nat) : (s.afterResolve u).clock = s.clock := rfl

@[simp]
theorem afterResolve_attempts (s : LoopState) (u : List Nat) :
    (s.afterResolve u).attempts = s.attempts + 1 := rfl

@[simp]
theorem advanceClock_pending (s : LoopState) (ms : Nat) :
    (s.advanceClock ms).fixture.pending = s.fixture.pending := rfl

@[simp]
theorem advanceClock_timers (s : LoopState) (ms : Nat) :
    (s.advanceClock ms).fixture.timers =
      s.fixture.timers.filterMap (fun t => if t ≤ ms then none else some (t - ms)) := rfl

@[simp]
theorem advanceClock_used (s : LoopState) (ms : Nat) : (s.advanceClock ms).used = s.used := rfl

@[simp]
theorem advanceClock_clock (s : LoopState) (ms : Nat) :
    (s.advanceClock ms).clock = s.clock + ms := rfl

@[simp]
theorem advanceClock_attempts (s : LoopState) (ms : Nat) :
    (s.advanceClock ms).attempts = s.attempts := rfl

@[simp]
theorem final_ok (s : LoopState) : (StabOutcome.ok s).final = s := rfl

@[simp]
theorem final_unhandledRequest (r : HttpRequest) (s : LoopState) :
    (StabOutcome.unhandledRequest r s).final = s := rfl

@[simp]
theorem final_unusedInstruction (i : Nat) (s : LoopState) :
    (StabOutcome.unusedInstruction i s).final = s := rfl

@[simp]
theorem final_timeout (s : LoopState) : (StabOutcome.timeout s).final = s := rfl

@[simp]
theorem finishRun_final (instructions : List HttpCallInstruction) (s : LoopState) :
    (finishRun instructions s).final = s := by
  rcases finishRun_cases instructions s with ⟨i, -, hf⟩ | ⟨-, hf⟩ <;> rw [hf] <;> rfl

theorem runLoop_stable_exit {instructions : List HttpCallInstruction} {ms : Nat}
    {fuel : Nat} {s : LoopState} (hp : s.fixture.pending = []) (ht : s.fixture.timers = []) :
    runLoop instructions ms (fuel + 1) s = finishRun instructions (s.afterResolve s.used) := by
  have hiter : loopIteration instructions ms s =
      .finished (finishRun instructions (s.afterResolve s.used)) := by
    unfold loopIteration
    rw [hp, ht]
    simp
  unfold runLoop
  rw [hiter]

theorem runLoop_ok_allUsed {instructions : List HttpCallInstruction} {ms : Nat} :
    ∀ fuel (s₀ s : LoopState), runLoop instructions ms fuel s₀ = .ok s →
      firstUnusedIdx instructions.length s.used = none := by
  intro fuel
  induction fuel with
  | zero =>
    intro s₀ s h
    unfold runLoop at h
    by_cases hst : s₀.fixture.isStable = true
    · rw [if_pos hst] at h
      obtain ⟨hnone, rfl⟩ := finishRun_eq_ok h
      exact hnone
    · rw [if_neg hst] at h
      cases h
  | succ n ih =>
    intro s₀ s h
    unfold runLoop at h
    cases hit : loopIteration instructions ms s₀ with
    | finished out =>
      rw [hit] at h
      dsimp only at h
      rcases loopIteration_finished_cases hit with ⟨r, -, hout⟩ | ⟨used', -, -, -, hout⟩
      · rw [hout] at h; cases h
      · rw [hout] at h
        obtain ⟨hnone, rfl⟩ := finishRun_eq_ok h
        exact hnone
    | proceed s' =>
      rw [hit] at h
      dsimp only at h
      exact ih s' s h

theorem runLoop_attempts_le {instructions : List HttpCallInstruction} {ms : Nat} :
    ∀ fuel (s : LoopState),
      (runLoop instructions ms fuel s).final.attempts ≤ s.attempts + fuel := by
  intro fuel
  induction fuel with
  | zero =>
    intro s
    unfold runLoop
    by_cases hst : s.fixture.isStable = true
    · rw [if_pos hst]; simp
    · rw [if_neg hst]; simp
  | succ n ih =>
    intro s
    unfold runLoop
    cases hit : loopIteration instructions ms s with
    | finished out =>
      dsimp only
      rcases loopIteration_finished_cases hit with ⟨r, -, hout⟩ | ⟨used', -, -, -, hout⟩
      · rw [hout]; simp
      · rw [hout]; simp
    | proceed s' =>
      dsimp only
      obtain ⟨used', -, hs'⟩ := loopIteration_proceed_cases hit
      have := ih s'
      rw [hs'] at this ⊢
      simp at this ⊢
      omega

theorem runLoop_timeout_unstable {instructions : List HttpCallInstruction} {ms : Nat} :
    ∀ fuel (s₀ s : LoopState), runLoop instructions ms fuel s₀ = .timeout s →
      s.fixture.isStable = false := by
  intro fuel
  induction fuel with
  | zero =>
    intro s₀ s h
    unfold runLoop at h
    by_cases hst : s₀.fixture.isStable = true
    · rw [if_pos hst] at h
      rcases finishRun_cases instructions s₀ with ⟨i, -, hf⟩ | ⟨-, hf⟩ <;> rw [hf] at h <;> cases h
    · rw [if_neg hst] at h
      injection h with h
      rw [← h]
      exact Bool.not_eq_true _ ▸ Bool.eq_false_iff.mpr hst
  | succ n ih =>
    intro s₀ s h
    unfold runLoop at h
    cases hit : loopIteration instructions ms s₀ with
    | finished out =>
      rw [hit] at h
      dsimp only at h
      rcases loopIteration_finished_cases hit with ⟨r, -, hout⟩ | ⟨used', -, -, -, hout⟩
      · rw [hout] at h; cases h
      · rw [hout] at h
        rcases finishRun_cases instructions (s₀.afterResolve used') with ⟨i, -, hf⟩ | ⟨-, hf⟩ <;>
          rw [hf] at h <;> cases h
    | proceed s' =>
      rw [hit] at h
      dsimp only at h
      exact ih s' s h

theorem runLoop_timer_timeout {instructions : List HttpCallInstruction} {ms : Nat} :
    ∀ fuel (s : LoopState) (t : Nat), s.fixture.pending = [] → s.fixture.timers = [t] →
      fuel * ms < t → ∃ s', runLoop instructions ms fuel s = .timeout s' := by
  intro fuel
  induction fuel with
  | zero =>
    intro s t hp ht hlt
    refine ⟨s, ?_⟩
    unfold runLoop
    have hst : s.fixture.isStable = false := by
      simp [Fixture.isStable, hp, ht]
    rw [hst]
    simp
  | succ n ih =>
    intro s t hp ht hlt
    have hsm : (n + 1) * ms = n * ms + ms := Nat.succ_mul n ms
    have hms : ms < t := by omega
    have hnle : ¬ t ≤ ms := by omega
    have hiter : loopIteration instructions ms s =
        .proceed ((s.afterResolve s.used).advanceClock ms) := by
      unfold loopIteration
      rw [hp, ht]
      simp
    have hnext := ih ((s.afterResolve s.used).advanceClock ms) (t - ms)
      (by simp) (by simp [ht, hnle]) (by omega)
    obtain ⟨s', hs'⟩ := hnext
    refine ⟨s', ?_⟩
    unfold runLoop
    rw [hiter]
    exact hs'

theorem runLoop_succ_proceed {instructions : List HttpCallInstruction} {ms fuel : Nat}
    {s s' : LoopState} (h : loopIteration instructions ms s = .proceed s') :
    runLoop instructions ms (fuel + 1) s = runLoop instructions ms fuel s' := by
  conv_lhs => unfold runLoop
  rw [h]

theorem runLoop_succ_finished {instructions : List HttpCallInstruction} {ms fuel : Nat}
    {s : LoopState} {out : StabOutcome} (h : loopIteration instructions ms s = .finished out) :
    runLoop instructions ms (fuel + 1) s = out := by
  unfold runLoop
  rw [h]

theorem runLoop_two_attempts {instructions : List HttpCallInstruction} {ms fuel : Nat}
    {s s' : LoopState} (hit : loopIteration instructions ms s = .proceed s')
    (hp : s'.fixture.pending = []) (ht : s'.fixture.timers = []) :
    runLoop instructions ms (fuel + 2) s = finishRun instructions (s'.afterResolve s'.used) := by
  rw [show fuel + 2 = (fuel + 1) + 1 from rfl, runLoop_succ_proceed hit]
  exact runLoop_stable_exit hp ht

/-- The indices of the instructions whose checkers accept the request. -/
def matchingIdxs (instructions : List HttpCallInstruction) (r : HttpRequest) : List Nat :=
  (List.range instructions.length).filter (fun i => acceptsIdx instructions i r)

theorem uniqueMatch_of_count_one {instructions : List HttpCallInstruction} {r : HttpRequest}
    (h : (matchingIdxs instructions r).length = 1) :
    ∃ i, acceptsIdx instructions i r = true ∧
      ∀ j, acceptsIdx instructions j r = true → j = i := by
  obtain ⟨a, ha⟩ := List.length_eq_one.mp h
  have hmem : a ∈ matchingIdxs instructions r := by rw [ha]; simp
  have hacc : acceptsIdx instructions a r = true := (List.mem_filter.mp hmem).2
  refine ⟨a, hacc, fun j hj => ?_⟩
  have hjmem : j ∈ matchingIdxs instructions r :=
    List.mem_filter.mpr ⟨List.mem_range.mpr (acceptsIdx_lt_length hj), hj⟩
  rw [ha] at hjmem
  simpa using hjmem

/-- Modelled from the spec: a canned instruction constructor — the matcher is
the (path, method) tuple and the response carries the fixed status code, with
the body produced by the caller's optional body getter (empty otherwise). -/
def predefinedInstruction (method : HttpMethod) (status : Nat) (path : EndpointPath)
    (bodyGetter : Option (HttpRequest → List (String × String) → String)) :
    HttpCallInstruction :=
  (.pathMethod path method,
   fun r sp => { status := status, body := (bodyGetter.getD (fun _ _ => "")) r sp })

/-- The two canned status variants offered for one HTTP method: `success`
responds 200 OK and `error` responds 500 Internal Server Error. -/
structure PredefinedMethodInstructions where
  success : EndpointPath → Option (HttpRequest → List (String × String) → String) →
    HttpCallInstruction
  error : EndpointPath → Option (HttpRequest → List (String × String) → String) →
    HttpCallInstruction

/-- The canned constructors for one HTTP method. -/
def predefinedFor (method : HttpMethod) : PredefinedMethodInstructions :=
  { success := predefinedInstruction method 200,
    error := predefinedInstruction method 500 }

/-- Modelled from the spec: `predefinedHttpCallInstructions` — canned
instruction constructors for the seven supported HTTP methods, each in the
two status variants. -/
def predefinedHttpCallInstructions : List (HttpMethod × PredefinedMethodInstructions) :=
  [("HEAD", predefinedFor "HEAD"), ("OPTIONS", predefinedFor "OPTIONS"),
   ("GET", predefinedFor "GET"), ("POST", predefinedFor "POST"),
   ("PUT", predefinedFor "PUT"), ("PATCH", predefinedFor "PATCH"),
   ("DELETE", predefinedFor "DELETE")]

/-- A DOM element, abstracted to its attribute list (first binding of a name
wins on lookup). -/
structure DomElement where
  attributes : List (String × String)
  deriving DecidableEq

/-- Look an attribute up on an element. -/
def DomElement.getAttribute (e : DomElement) (attrName : String) : Option String :=
  (e.attributes.find? (fun kv => kv.1 == attrName)).map Prod.snd

/-- Set an attribute on an element, replacing any previous binding. -/
def DomElement.setAttribute (e : DomElement) (attrName value : String) : DomElement :=
  { attributes := (attrName, value) :: e.attributes.filter (fun kv => kv.1 != attrName) }

/-- Modelled from the spec: the `TestIdDirective` sets the `data-test-id`
attribute on its host DOM node to the directive's input value. -/
def TestIdDirective.applyTestId (value : String) (e : DomElement) : DomElement :=
  e.setAttribute "data-test-id" value

/-- Modelled from the spec: the DOM-query harness, keyed by a single string
attribute name. -/
structure DebugElementHarness where
  testIdAttribute : String

/-- Modelled from the spec: constructing the harness — the attribute name is
the caller's `testIdAttribute` when given and `data-test-id` by default. -/
def DebugElementHarness.create (testIdAttribute : Option String) : DebugElementHarness :=
  { testIdAttribute := testIdAttribute.getD "data-test-id" }

/-- Modelled from the spec: the harness query — the first element whose
test-id attribute equals the queried test id. -/
def DebugElementHarness.query (h : DebugElementHarness) (testId : String)
    (elements : List DomElement) : Option DomElement :=
  elements.find? (fun e => e.getAttribute h.testIdAttribute == some testId)

/-- Modelled from the spec: `TestIdDirective.idsToMap` — turn an array of test
ids into a map in which both keys and values are the test ids. -/
def TestIdDirective.idsToMap (testIds : List String) : List (String × String) :=
  testIds.map (fun testId => (testId, testId))

/-- C1: for every instruction list I and every set R of pending requests
issued during one invocation, if every request in R matches exactly one
instruction of I and every instruction of I is matched by some request, then
the stabilization operation returns success and the fixture is stable at
return. -/
theorem runTasksUntilStable_succeeds_when_all_matched
    (I : List HttpCallInstruction) (R : List HttpRequest) (ms : Option Nat)
    (h1 : ∀ r ∈ R, (matchingIdxs I r).length = 1)
    (h2 : ∀ i ∈ List.range I.length, ∃ r ∈ R, acceptsIdx I i r = true) :
    ∃ s, runTasksUntilStable ⟨R, []⟩ ⟨ms, I⟩ = .ok s ∧ s.fixture.isStable = true := by
  have hfind : ∀ r ∈ R, ∃ i, findMatchIdx I r = some i ∧
      ∀ j, acceptsIdx I j r = true → j = i := by
    intro r hr
    obtain ⟨i, hacc, huniq⟩ := uniqueMatch_of_count_one (h1 r hr)
    exact ⟨i, findMatchIdx_eq_of_unique hacc huniq, huniq⟩
  cases R with
  | nil =>
    have hI : I = [] := by
      cases hI : I with
      | nil => rfl
      | cons ins restI =>
        obtain ⟨r, hr, -⟩ := h2 0 (by rw [hI]; simp)
        simp at hr
    subst hI
    refine ⟨(⟨⟨[], []⟩, [], 0, 0⟩ : LoopState).afterResolve [], ?_, by simp [Fixture.isStable]⟩
    have hrun : runTasksUntilStable ⟨[], []⟩ ⟨ms, []⟩ =
        finishRun [] ((⟨⟨[], []⟩, [], 0, 0⟩ : LoopState).afterResolve []) := by
      unfold runTasksUntilStable
      rw [show maxStabilizationAttempts = 99 + 1 from rfl]
      exact runLoop_stable_exit rfl rfl
    rw [hrun]
    rfl
  | cons r0 rest =>
    have hmatched : ∀ r ∈ (r0 :: rest), ∃ i, findMatchIdx I r = some i :=
      fun r hr => (hfind r hr).imp (fun i h => h.1)
    obtain ⟨used', hok, hsub, hall⟩ := resolvePending_ok_of_matched hmatched []
    have hiter : loopIteration I ((RunParams.mk ms I).resolvedIterationMs)
        ⟨⟨r0 :: rest, []⟩, [], 0, 0⟩ =
        .proceed (((⟨⟨r0 :: rest, []⟩, [], 0, 0⟩ : LoopState).afterResolve used').advanceClock
          ((RunParams.mk ms I).resolvedIterationMs)) := by
      unfold loopIteration
      dsimp only
      rw [hok]
      simp
    have hrun : runTasksUntilStable ⟨r0 :: rest, []⟩ ⟨ms, I⟩ =
        finishRun I
          (((((⟨⟨r0 :: rest, []⟩, [], 0, 0⟩ : LoopState).afterResolve used').advanceClock
            ((RunParams.mk ms I).resolvedIterationMs))).afterResolve used') := by
      unfold runTasksUntilStable
      rw [show maxStabilizationAttempts = 98 + 2 from rfl]
      exact runLoop_two_attempts hiter (by simp) (by simp)
    have hallused : firstUnusedIdx I.length used' = none := by
      rw [firstUnusedIdx_none_iff]
      intro i hi
      obtain ⟨r, hr, hacc⟩ := h2 i (List.mem_range.mpr hi)
      obtain ⟨k, hk, huniq⟩ := hfind r hr
      obtain rfl : i = k := huniq i hacc
      have hmem : i ∈ used' := hall r hr i hk
      simpa using hmem
    refine ⟨((((⟨⟨r0 :: rest, []⟩, [], 0, 0⟩ : LoopState).afterResolve used').advanceClock
      ((RunParams.mk ms I).resolvedIterationMs)).afterResolve used'), ?_,
      by simp [Fixture.isStable]⟩
    rw [hrun]
    unfold finishRun
    simp only [afterResolve_used, advanceClock_used]
    rw [hallused]

/-- Witness for C1: one GET instruction for "/api/todos" and one matching
pending GET request to "/api/todos" — the stabilization operation returns
success with a stable fixture. -/
theorem runTasksUntilStable_succeeds_when_all_matched_witness :
    ∃ s, runTasksUntilStable ⟨[⟨"/api/todos", "GET"⟩], []⟩
      ⟨none, [(HttpCallChecker.pathMethod (.literal "/api/todos") "GET",
        fun _ _ => ⟨200, "[]"⟩)]⟩ = .ok s ∧ s.fixture.isStable = true :=
  runTasksUntilStable_succeeds_when_all_matched _ _ none (by decide) (by decide)

/-- C2: a pending request that matches no supplied instruction makes the
standalone helper raise MatchNotFound and makes the stabilization loop raise
UnhandledRequest, and the loop performs no clock advancement past the
detection (in particular the scenario run ends with the clock still at 0). -/
theorem unmatched_request_raises_and_stops_clock :
    (∀ (I : List HttpCallInstruction) (ms : Nat) (s : LoopState) (r : HttpRequest)
      (s' : LoopState), loopIteration I ms s = .finished (.unhandledRequest r s') →
      s'.clock = s.clock) ∧
    (∀ (I : List HttpCallInstruction) (R : List HttpRequest) (ts : List Nat) (ms : Option Nat),
      (∃ r ∈ R, findMatchIdx I r = none) →
      ∃ r', r' ∈ R ∧ findMatchIdx I r' = none ∧
        completeHttpCalls I R = .error (.matchNotFound r') ∧
        ∃ s, runTasksUntilStable ⟨R, ts⟩ ⟨ms, I⟩ = .unhandledRequest r' s ∧ s.clock = 0) := by
  constructor
  · intro I ms s r s' h
    rcases loopIteration_finished_cases h with ⟨r₀, -, hout⟩ | ⟨used', -, -, -, hout⟩
    · injection hout with h1 h2
      rw [h2]
      simp
    · rcases finishRun_cases I (s.afterResolve used') with ⟨i, -, hf⟩ | ⟨-, hf⟩ <;>
        rw [hf] at hout <;> cases hout
  · intro I R ts ms hbad
    obtain ⟨r', hr', hnone, hres, hcomp⟩ := resolvePending_error_first hbad []
    refine ⟨r', hr', hnone, hcomp, ?_⟩
    have hiter : loopIteration I ((RunParams.mk ms I).resolvedIterationMs) ⟨⟨R, ts⟩, [], 0, 0⟩ =
        .finished (.unhandledRequest r' ((⟨⟨R, ts⟩, [], 0, 0⟩ : LoopState).bump)) := by
      unfold loopIteration
      dsimp only
      rw [hres]
    refine ⟨(⟨⟨R, ts⟩, [], 0, 0⟩ : LoopState).bump, ?_, by simp⟩
    unfold runTasksUntilStable
    rw [show maxStabilizationAttempts = 99 + 1 from rfl]
    dsimp only
    exact runLoop_succ_finished hiter

/-- Witness for C2: a pending POST with no instruction supplied — the helper
reports MatchNotFound, the loop reports UnhandledRequest and the clock never
advances. -/
theorem unmatched_request_raises_and_stops_clock_witness :
    ∃ r', r' ∈ [(⟨"/api/todos", "POST"⟩ : HttpRequest)] ∧
      findMatchIdx [] r' = none ∧
      completeHttpCalls [] [⟨"/api/todos", "POST"⟩] = .error (.matchNotFound r') ∧
      ∃ s, runTasksUntilStable ⟨[⟨"/api/todos", "POST"⟩], []⟩ ⟨none, []⟩ =
        .unhandledRequest r' s ∧ s.clock = 0 :=
  unmatched_request_raises_and_stops_clock.2 [] [⟨"/api/todos", "POST"⟩] [] none (by decide)

/-- C3: when every pending request is handled but some supplied instruction is
matched by no request ever issued, the stabilization operation raises
UnusedInstruction even though stability was otherwise reached; and the loop
never reports success while an instruction remains unmatched. -/
theorem unusedInstruction_raised_despite_stability :
    (∀ (I : List HttpCallInstruction) (R : List HttpRequest) (ms : Option Nat),
      (∀ r ∈ R, ∃ i, findMatchIdx I r = some i) →
      (∃ i, i < I.length ∧ ∀ r ∈ R, acceptsIdx I i r = false) →
      ∃ j s, runTasksUntilStable ⟨R, []⟩ ⟨ms, I⟩ = .unusedInstruction j s ∧
        s.fixture.isStable = true) ∧
    (∀ (f : Fixture) (p : RunParams) (s : LoopState), runTasksUntilStable f p = .ok s →
      ∀ i, i < p.httpCallInstructions.length → s.used.contains i = true) := by
  constructor
  · intro I R ms hmatched hunused
    obtain ⟨i, hi, hno⟩ := hunused
    cases R with
    | nil =>
      have hcont : List.contains ([] : List Nat) i = false := by simp
      obtain ⟨j, hj⟩ := firstUnusedIdx_isSome_of hi hcont
      refine ⟨j, (⟨⟨[], []⟩, [], 0, 0⟩ : LoopState).afterResolve [], ?_,
        by simp [Fixture.isStable]⟩
      have hrun : runTasksUntilStable ⟨[], []⟩ ⟨ms, I⟩ =
          finishRun I ((⟨⟨[], []⟩, [], 0, 0⟩ : LoopState).afterResolve []) := by
        unfold runTasksUntilStable
        rw [show maxStabilizationAttempts = 99 + 1 from rfl]
        exact runLoop_stable_exit rfl rfl
      rw [hrun]
      unfold finishRun
      simp only [afterResolve_used]
      rw [hj]
    | cons r0 rest =>
      obtain ⟨used', hok, hsub, hall⟩ := resolvePending_ok_of_matched hmatched []
      have hcont : used'.contains i = false := by
        by_cases hc : used'.contains i = true
        · have hmem : i ∈ used' := by simpa using hc
          rcases resolvePending_ok_mem hok i hmem with hin | ⟨r, hr, hfind⟩
          · simp at hin
          · have hacc := findMatchIdx_some_accepts hfind
            rw [hno r hr] at hacc
            cases hacc
        · exact Bool.eq_false_iff.mpr hc
      obtain ⟨j, hj⟩ := firstUnusedIdx_isSome_of hi hcont
      have hiter : loopIteration I ((RunParams.mk ms I).resolvedIterationMs)
          ⟨⟨r0 :: rest, []⟩, [], 0, 0⟩ =
          .proceed (((⟨⟨r0 :: rest, []⟩, [], 0, 0⟩ : LoopState).afterResolve used').advanceClock
            ((RunParams.mk ms I).resolvedIterationMs)) := by
        unfold loopIteration
        dsimp only
        rw [hok]
        simp
      refine ⟨j, ((((⟨⟨r0 :: rest, []⟩, [], 0, 0⟩ : LoopState).afterResolve used').advanceClock
        ((RunParams.mk ms I).resolvedIterationMs)).afterResolve used'), ?_,
        by simp [Fixture.isStable]⟩
      have hrun : runTasksUntilStable ⟨r0 :: rest, []⟩ ⟨ms, I⟩ =
          finishRun I
            (((((⟨⟨r0 :: rest, []⟩, [], 0, 0⟩ : LoopState).afterResolve used').advanceClock
              ((RunParams.mk ms I).resolvedIterationMs))).afterResolve used') := by
        unfold runTasksUntilStable
        rw [show maxStabilizationAttempts = 98 + 2 from rfl]
        exact runLoop_two_attempts hiter (by simp) (by simp)
      rw [hrun]
      unfold finishRun
      simp only [afterResolve_used, advanceClock_used]
      rw [hj]
  · intro f p s h i hi
    have hnone : firstUnusedIdx p.httpCallInstructions.length s.used = none := by
      unfold runTasksUntilStable at h
      exact runLoop_ok_allUsed maxStabilizationAttempts _ s h
    have := firstUnusedIdx_none_iff.mp hnone i hi
    exact this

/-- Witness for C3: one GET instruction supplied but no request ever issued —
the loop ends stable yet reports the instruction as unused. -/
theorem unusedInstruction_raised_despite_stability_witness :
    ∃ j s, runTasksUntilStable ⟨[], []⟩
      ⟨none, [(HttpCallChecker.pathMethod (.literal "/api/todos") "GET",
        fun _ _ => ⟨200, "[]"⟩)]⟩ = .unusedInstruction j s ∧ s.fixture.isStable = true :=
  unusedInstruction_raised_despite_stability.1 _ [] none (by simp) ⟨0, by decide, by decide⟩

/-- C4: when several instructions accept the same request, the request is
resolved by exactly one of them — the first accepting instruction in
caller-supplied order — so the delivered response is that instruction's
response. -/
theorem first_matching_instruction_wins
    (I : List HttpCallInstruction) (r : HttpRequest) (i j : Nat)
    (_hij : i < j) (hacci : acceptsIdx I i r = true) (_haccj : acceptsIdx I j r = true)
    (hfirst : ∀ k, k < i → acceptsIdx I k r = false) :
    findMatchIdx I r = some i ∧
    ∃ ins, I.get? i = some ins ∧
      completeHttpCalls I [r] = .ok [(r, ins.2 r (parseSearchParams r.url))] := by
  have hf : findMatchIdx I r = some i := findMatchIdx_eq_of_first hacci hfirst
  obtain ⟨ins, hins, -⟩ := acceptsIdx_get hacci
  have hins' : I[i]? = some ins := by
    rw [← List.get?_eq_getElem?]
    exact hins
  refine ⟨hf, ins, hins, ?_⟩
  simp [completeHttpCalls, hf, hins', Except.map]

/-- Two instructions for the same (path, method) with different response
bodies, used to exercise the order-sensitivity of matching. -/
def duplicateTodoInstructions : List HttpCallInstruction :=
  [(HttpCallChecker.pathMethod (.literal "/todos/1") "GET", fun _ _ => ⟨200, "first"⟩),
   (HttpCallChecker.pathMethod (.literal "/todos/1") "GET", fun _ _ => ⟨200, "second"⟩)]

/-- Witness for C4: two instructions both matching a GET of "/todos/1" with
different response bodies — the delivered response is the first one's. -/
theorem first_matching_instruction_wins_witness :
    findMatchIdx duplicateTodoInstructions ⟨"/todos/1", "GET"⟩ = some 0 ∧
    ∃ ins, duplicateTodoInstructions.get? 0 = some ins ∧
      completeHttpCalls duplicateTodoInstructions [⟨"/todos/1", "GET"⟩] =
        .ok [(⟨"/todos/1", "GET"⟩, ins.2 ⟨"/todos/1", "GET"⟩
          (parseSearchParams "/todos/1"))] :=
  first_matching_instruction_wins duplicateTodoInstructions ⟨"/todos/1", "GET"⟩ 0 1
    (by decide) (by decide) (by decide) (fun k hk => absurd hk (Nat.not_lt_zero k))

/-- C5: every stabilization invocation performs at most the fixed
caller-unconfigurable number of attempts; a timeout outcome only occurs with
the fixture still unstable; and when the fixture stays unstable past the
whole attempt budget (here: a timer longer than the budget), the invocation
aborts with the stabilization-timeout failure. -/
theorem stabilization_is_bounded_and_times_out :
    (∀ (f : Fixture) (p : RunParams),
      (runTasksUntilStable f p).final.attempts ≤ maxStabilizationAttempts) ∧
    (∀ (f : Fixture) (p : RunParams) (s : LoopState),
      runTasksUntilStable f p = .timeout s → s.fixture.isStable = false) ∧
    (∀ (p : RunParams) (t : Nat), maxStabilizationAttempts * p.resolvedIterationMs < t →
      ∃ s, runTasksUntilStable ⟨[], [t]⟩ p = .timeout s) := by
  refine ⟨?_, ?_, ?_⟩
  · intro f p
    unfold runTasksUntilStable
    have := @runLoop_attempts_le p.httpCallInstructions p.resolvedIterationMs
      maxStabilizationAttempts ⟨f, [], 0, 0⟩
    simpa using this
  · intro f p s h
    unfold runTasksUntilStable at h
    exact runLoop_timeout_unstable maxStabilizationAttempts _ s h
  · intro p t hlt
    unfold runTasksUntilStable
    exact runLoop_timer_timeout maxStabilizationAttempts ⟨⟨[], [t]⟩, [], 0, 0⟩ t rfl rfl hlt

/-- Witness for C5: a timer of 100001 ms with the default 1000 ms increment
outlives the 100-attempt budget, so the invocation times out. -/
theorem stabilization_is_bounded_and_times_out_witness :
    ∃ s, runTasksUntilStable ⟨[], [100001]⟩ ⟨none, []⟩ = .timeout s :=
  stabilization_is_bounded_and_times_out.2.2 ⟨none, []⟩ 100001 (by decide)

/-- C6: a (path, method) matcher accepts a request exactly when the request's
method equals the tuple's method and the URL matches the path — a literal
path by the exact-or-substring rule and a pattern path by the pattern's test;
in particular the literal path "/todos/1" and an equivalent pattern both
match a GET request to "/todos/1". -/
theorem pathMethod_matcher_semantics :
    (∀ (p : EndpointPath) (m : HttpMethod) (r : HttpRequest),
      checkerAccepts (.pathMethod p m) r = true ↔
        (r.method = m ∧ endpointPathMatches p r.url = true)) ∧
    (∀ path url : String, endpointPathMatches (.literal path) url = true ↔
        (path = url ∨ path.data <:+: url.data)) ∧
    (∀ (t : String → Bool) (url : String), endpointPathMatches (.pattern t) url = t url) ∧
    checkerAccepts (.pathMethod (.literal "/todos/1") "GET") ⟨"/todos/1", "GET"⟩ = true ∧
    checkerAccepts (.pathMethod (.pattern (fun url => url == "/todos/1")) "GET")
      ⟨"/todos/1", "GET"⟩ = true := by
  refine ⟨?_, ?_, fun t url => rfl, by decide, by decide⟩
  · intro p m r
    simp [checkerAccepts]
  · intro path url
    simp [endpointPathMatches, stringPathMatches]

/-- Witness for C6: the matcher equivalence evaluated at the literal path
"/todos/1" against a GET request to "/todos/1". -/
theorem pathMethod_matcher_semantics_witness :
    checkerAccepts (.pathMethod (.literal "/todos/1") "GET") ⟨"/todos/1", "GET"⟩ = true :=
  (pathMethod_matcher_semantics.1 (.literal "/todos/1") "GET" ⟨"/todos/1", "GET"⟩).mpr
    ⟨rfl, by decide⟩

/-- C7: every non-terminal iteration advances the simulated clock by exactly
the effective `iterationMs`, and when the caller omits `iterationMs` the
effective increment is the default of 1000 milliseconds. -/
theorem iteration_advances_clock_by_iterationMs :
    (∀ (I : List HttpCallInstruction) (ms : Nat) (s s' : LoopState),
      loopIteration I ms s = .proceed s' → s'.clock = s.clock + ms) ∧
    (∀ (instrs : List HttpCallInstruction),
      (RunParams.mk none instrs).resolvedIterationMs = defaultIterationMs) ∧
    defaultIterationMs = 1000 := by
  refine ⟨?_, fun instrs => rfl, rfl⟩
  intro I ms s s' h
  obtain ⟨used', -, rfl⟩ := loopIteration_proceed_cases h
  simp

/-- Witness for C7: a concrete non-terminal iteration (one outstanding timer,
increment 5 ms) advances the clock from 0 to 0 + 5. -/
theorem iteration_advances_clock_by_iterationMs_witness :
    (((⟨⟨[], [10]⟩, [], 0, 0⟩ : LoopState).afterResolve []).advanceClock 5).clock =
      (⟨⟨[], [10]⟩, [], 0, 0⟩ : LoopState).clock + 5 :=
  iteration_advances_clock_by_iterationMs.1 [] 5 _ _ (by decide)

@[simp]
theorem idsToMap_nil : TestIdDirective.idsToMap [] = [] := rfl

@[simp]
theorem idsToMap_cons (a : String) (rest : List String) :
    TestIdDirective.idsToMap (a :: rest) = (a, a) :: TestIdDirective.idsToMap rest := rfl

/-- C8: the predefined instruction constructors cover exactly the seven HTTP
methods HEAD, OPTIONS, GET, POST, PUT, PATCH and DELETE, each in exactly the
two status variants: for every path the success variant's response has status
200 and the error variant's response has status 500, both matching on the
given (path, method) tuple. -/
theorem predefined_instructions_cover_seven_methods :
    (predefinedHttpCallInstructions.map Prod.fst =
      ["HEAD", "OPTIONS", "GET", "POST", "PUT", "PATCH", "DELETE"]) ∧
    (∀ (k : Nat) (m : HttpMethod) (entry : PredefinedMethodInstructions),
      predefinedHttpCallInstructions.get? k = some (m, entry) →
      ∀ (path : EndpointPath) (bg : Option (HttpRequest → List (String × String) → String))
        (r : HttpRequest) (sp : List (String × String)),
        ((entry.success path bg).2 r sp).status = 200 ∧
        ((entry.error path bg).2 r sp).status = 500 ∧
        (entry.success path bg).1 = .pathMethod path m ∧
        (entry.error path bg).1 = .pathMethod path m) := by
  refine ⟨rfl, ?_⟩
  intro k m entry h path bg r sp
  have hmem : (m, entry) ∈ predefinedHttpCallInstructions := List.get?_mem h
  simp only [predefinedHttpCallInstructions, List.mem_cons, List.not_mem_nil, or_false]
    at hmem
  rcases hmem with h1 | h1 | h1 | h1 | h1 | h1 | h1 <;>
    (rw [Prod.mk.injEq] at h1; obtain ⟨rfl, rfl⟩ := h1; exact ⟨rfl, rfl, rfl, rfl⟩)

/-- Witness for C8: the GET entry (index 2) — its success instruction responds
200 and its error instruction responds 500, both matching (path, "GET"). -/
theorem predefined_instructions_cover_seven_methods_witness :
    (((predefinedFor "GET").success (.literal "api/users") none).2
      ⟨"api/users", "GET"⟩ []).status = 200 ∧
    (((predefinedFor "GET").error (.literal "api/users") none).2
      ⟨"api/users", "GET"⟩ []).status = 500 ∧
    ((predefinedFor "GET").success (.literal "api/users") none).1 =
      .pathMethod (.literal "api/users") "GET" ∧
    ((predefinedFor "GET").error (.literal "api/users") none).1 =
      .pathMethod (.literal "api/users") "GET" :=
  predefined_instructions_cover_seven_methods.2 2 "GET" (predefinedFor "GET") rfl
    (.literal "api/users") none ⟨"api/users", "GET"⟩ []

/-- C9: the test-id directive sets the attribute named "data-test-id" to its
value, the harness constructed without an explicit attribute name queries by
that same attribute, and hence a directive-tagged element is found by a
default-constructed harness. -/
theorem testIdDirective_default_harness_agree :
    ((DebugElementHarness.create none).testIdAttribute = "data-test-id") ∧
    (∀ (v : String) (e : DomElement),
      (TestIdDirective.applyTestId v e).getAttribute "data-test-id" = some v) ∧
    (∀ (v : String) (e : DomElement) (rest : List DomElement),
      (DebugElementHarness.create none).query v (TestIdDirective.applyTestId v e :: rest) =
        some (TestIdDirective.applyTestId v e)) := by
  have hattr : ∀ (v : String) (e : DomElement),
      (TestIdDirective.applyTestId v e).getAttribute "data-test-id" = some v := by
    intro v e
    simp [TestIdDirective.applyTestId, DomElement.setAttribute, DomElement.getAttribute]
  refine ⟨rfl, hattr, ?_⟩
  intro v e rest
  simp [DebugElementHarness.query, DebugElementHarness.create, hattr v e]

/-- C10: `TestIdDirective.idsToMap` returns a map whose keys are exactly the
given test ids and in which every key maps to itself. -/
theorem idsToMap_keys_and_values :
    (∀ ids : List String, (TestIdDirective.idsToMap ids).map Prod.fst = ids) ∧
    (∀ (ids : List String) (t : String), t ∈ ids →
      (TestIdDirective.idsToMap ids).lookup t = some t) ∧
    (∀ (ids : List String) (k v : String), (k, v) ∈ TestIdDirective.idsToMap ids →
      k ∈ ids ∧ v = k) := by
  refine ⟨?_, ?_, ?_⟩
  · intro ids
    induction ids with
    | nil => rfl
    | cons a rest ih => simp [ih]
  · intro ids t ht
    induction ids with
    | nil => simp at ht
    | cons a rest ih =>
      by_cases h : t = a
      · subst h
        simp [List.lookup]
      · have hmem : t ∈ rest := by
          rcases List.mem_cons.mp ht with h' | h'
          · exact absurd h' h
          · exact h'
        have hbeq : (t == a) = false := by simp [h]
        simp [List.lookup, hbeq]
        exact ih hmem
  · intro ids k v hmem
    induction ids with
    | nil => simp at hmem
    | cons a rest ih =>
      simp only [idsToMap_cons, List.mem_cons] at hmem
      rcases hmem with heq | hmem
      · rw [Prod.mk.injEq] at heq
        obtain ⟨rfl, rfl⟩ := heq
        exact ⟨by simp, rfl⟩
      · obtain ⟨hk, hv⟩ := ih hmem
        exact ⟨by simp [hk], hv⟩

/-- Witness for C10: looking up "submit-button" in the map built from
["submit-button", "cancel-button"] yields "submit-button" itself. -/
theorem idsToMap_keys_and_values_witness :
    (TestIdDirective.idsToMap ["submit-button", "cancel-button"]).lookup "submit-button" =
      some "submit-button" :=
  idsToMap_keys_and_values.2.1 ["submit-button", "cancel-button"] "submit-button" (by decide)
